import Mathlib

/-!
Shallow embedding of `md-OpenMP_12.c`: an all-pairs gravitational N-body
simulator.  Real (`double`) arithmetic is embedded as exact rational
arithmetic; the single transcendental operation `sqrt` is kept abstract as a
function parameter, since none of the verified properties depend on its
values.  The OpenMP-parallel per-particle loop is embedded sequentially,
which is faithful because each iteration reads only the snapshot arrays and
its own slots and writes only its own slots.
-/

namespace MD

/-- Per-particle live state: the parallel arrays `mass, x, y, z, vx, vy, vz`
of the C program, gathered per index. -/
structure Particle where
  mass : ℚ
  x : ℚ
  y : ℚ
  z : ℚ
  vx : ℚ
  vy : ℚ
  vz : ℚ
deriving DecidableEq, Repr

instance : Inhabited Particle := ⟨⟨0, 0, 0, 0, 0, 0, 0⟩⟩

/-- One entry of the snapshot arrays `old_x, old_y, old_z, old_mass`
(LOOP1 copies exactly these four arrays, not the velocities). -/
structure Snap where
  x : ℚ
  y : ℚ
  z : ℚ
  mass : ℚ
deriving DecidableEq, Repr

instance : Inhabited Snap := ⟨⟨0, 0, 0, 0⟩⟩

/-- `GRAVCONST = 0.001` (line 22). -/
def GRAVCONST : ℚ := 1 / 1000

/-- The snapshot entry for one particle. -/
def mkSnap (p : Particle) : Snap := ⟨p.x, p.y, p.z, p.mass⟩

/-- LOOP1 (lines 94-99): `old_x[i] = x[i]; old_y[i] = y[i]; old_z[i] = z[i];
old_mass[i] = mass[i]` for all `i`. -/
def snapshot (ps : List Particle) : List Snap := ps.map mkSnap

/-- The softening-limited separation (lines 115-119):
`temp_d = sqrt(dx*dx + dy*dy + dz*dz); d = temp_d>0.01 ? temp_d : 0.01`,
where `dx,dy,dz` is the displacement from the point `(px,py,pz)` to the
snapshot entry `s`. -/
def pairDist (sqrt : ℚ → ℚ) (px py pz : ℚ) (s : Snap) : ℚ :=
  let dx := s.x - px
  let dy := s.y - py
  let dz := s.z - pz
  let temp_d := sqrt (dx * dx + dy * dy + dz * dz)
  if temp_d > 1 / 100 then temp_d else 1 / 100

/-- The force magnitude (line 120):
`F = GRAVCONST * mass[i] * old_mass[j] / (d*d)` with `mi` the live mass of
`i` and `s` the snapshot entry of `j`. -/
def pairF (sqrt : ℚ → ℚ) (mi px py pz : ℚ) (s : Snap) : ℚ :=
  GRAVCONST * mi * s.mass / (pairDist sqrt px py pz s * pairDist sqrt px py pz s)

/-- One pairwise acceleration contribution (lines 115-124):
`ax = (F/mass[i]) * dx/d` and likewise for `ay, az`. -/
def pairAccel (sqrt : ℚ → ℚ) (mi px py pz : ℚ) (s : Snap) : ℚ × ℚ × ℚ :=
  let d := pairDist sqrt px py pz s
  let F := pairF sqrt mi px py pz s
  (F / mi * (s.x - px) / d, F / mi * (s.y - py) / d, F / mi * (s.z - pz) / d)

/-- The inner `j` loop (lines 113-130): runs over the snapshot entries with
index `j` counting up from 0, skips `j == i`, and accumulates the pairwise
accelerations into `(vxLocal, vyLocal, vzLocal)`. -/
def innerLoop (sqrt : ℚ → ℚ) (i : ℕ) (p : Particle) :
    ℕ → List Snap → ℚ × ℚ × ℚ → ℚ × ℚ × ℚ
  | _, [], acc => acc
  | j, s :: rest, acc =>
      innerLoop sqrt i p (j + 1) rest
        (if j = i then acc
         else
           (acc.1 + (pairAccel sqrt p.mass p.x p.y p.z s).1,
            acc.2.1 + (pairAccel sqrt p.mass p.x p.y p.z s).2.1,
            acc.2.2 + (pairAccel sqrt p.mass p.x p.y p.z s).2.2))

/-- `(vxLocal, vyLocal, vzLocal)` after the full inner loop for particle `i`,
starting from `(0,0,0)` (lines 109-130). -/
def innerSum (sqrt : ℚ → ℚ) (old : List Snap) (i : ℕ) (p : Particle) : ℚ × ℚ × ℚ :=
  innerLoop sqrt i p 0 old (0, 0, 0)

/-- The body of LOOP2 for one particle `i` (lines 108-140): accumulate the
local accelerations, then `vx[i] += vxLocal` etc., then
`x[i] = old_x[i] + vx[i]` etc.  `p` is the live entry of particle `i` at the
moment its iteration runs; mass is not written. -/
def bodyUpdate (sqrt : ℚ → ℚ) (old : List Snap) (i : ℕ) (p : Particle) : Particle :=
  let acc := innerSum sqrt old i p
  let nvx := p.vx + acc.1
  let nvy := p.vy + acc.2.1
  let nvz := p.vz + acc.2.2
  let oi := old.getD i default
  { mass := p.mass
    x := oi.x + nvx
    y := oi.y + nvy
    z := oi.z + nvz
    vx := nvx
    vy := nvy
    vz := nvz }

/-- LOOP2 (lines 105-141) embedded sequentially over the index list: each
iteration reads the live slot `i` and overwrites it with `bodyUpdate`. -/
def loop2 (sqrt : ℚ → ℚ) (old : List Snap) : List ℕ → List Particle → List Particle
  | [], live => live
  | i :: rest, live =>
      loop2 sqrt old rest (live.set i (bodyUpdate sqrt old i (live.getD i default)))

/-- One full time step (lines 90-141): take the snapshot, then run LOOP2 over
`i = 0 .. num-1`. -/
def step (sqrt : ℚ → ℚ) (ps : List Particle) : List Particle :=
  loop2 sqrt (snapshot ps) (List.range ps.length) ps

/-- The time-stepping loop (line 90): `n` iterations of `step`. -/
def stepsN (sqrt : ℚ → ℚ) : ℕ → List Particle → List Particle
  | 0, ps => ps
  | n + 1, ps => stepsN sqrt n (step sqrt ps)

/-- The pairwise contribution exactly as the spec words it:
`d⃗ = old_pos[j] - old_pos[i]`, `d = max(|d⃗|, 0.01)`,
`F = G * mass_i * old_mass_j / d²`, contribution `(F / mass_i) * (d⃗ / d)`,
with both endpoints (`oi` and `s`) read from the snapshot. -/
def specContrib (sqrt : ℚ → ℚ) (oi s : Snap) : ℚ × ℚ × ℚ :=
  let dx := s.x - oi.x
  let dy := s.y - oi.y
  let dz := s.z - oi.z
  let d0 := sqrt (dx * dx + dy * dy + dz * dz)
  let d := if d0 > 1 / 100 then d0 else 1 / 100
  let F := GRAVCONST * oi.mass * s.mass / (d * d)
  (F / oi.mass * (dx / d), F / oi.mass * (dy / d), F / oi.mass * (dz / d))

/-- Spec-side accumulation of `specContrib` over all `j ≠ i`, with particle
`i` taken from the snapshot. -/
def specLoop (sqrt : ℚ → ℚ) (i : ℕ) (oi : Snap) :
    ℕ → List Snap → ℚ × ℚ × ℚ → ℚ × ℚ × ℚ
  | _, [], acc => acc
  | j, s :: rest, acc =>
      specLoop sqrt i oi (j + 1) rest
        (if j = i then acc
         else
           (acc.1 + (specContrib sqrt oi s).1,
            acc.2.1 + (specContrib sqrt oi s).2.1,
            acc.2.2 + (specContrib sqrt oi s).2.2))

/-- The spec's acceleration sum for particle `i`: every displacement and
both masses are read from the snapshot. -/
def specAccel (sqrt : ℚ → ℚ) (old : List Snap) (i : ℕ) : ℚ × ℚ × ℚ :=
  specLoop sqrt i (old.getD i default) 0 old (0, 0, 0)

/-- The spec note's mass-cancelled contribution:
`G · old_mass_j / d² · (d⃗ / d)` — no dependence on `mass_i`. -/
def pairAccelNoMass (sqrt : ℚ → ℚ) (px py pz : ℚ) (s : Snap) : ℚ × ℚ × ℚ :=
  let d := pairDist sqrt px py pz s
  (GRAVCONST * s.mass / (d * d) * ((s.x - px) / d),
   GRAVCONST * s.mass / (d * d) * ((s.y - py) / d),
   GRAVCONST * s.mass / (d * d) * ((s.z - pz) / d))

/-- One pass of the inner body of `calc_centre_mass` (lines 195-203):
zero the accumulators, add `mass[i]*x[i]` etc. left to right, then divide
each component by `totalMass`. -/
def comPass (ps : List Particle) (totalMass : ℚ) : ℚ × ℚ × ℚ :=
  let s := ps.foldl
    (fun (acc : ℚ × ℚ × ℚ) p =>
      (acc.1 + p.mass * p.x, acc.2.1 + p.mass * p.y, acc.2.2 + p.mass * p.z))
    (0, 0, 0)
  (s.1 / totalMass, s.2.1 / totalMass, s.2.2 / totalMass)

/-- `calc_centre_mass` (lines 191-206): the outer loop `for axis in 0,1`
runs the identical overwriting pass twice. -/
def calc_centre_mass (ps : List Particle) (totalMass : ℚ) : ℚ × ℚ × ℚ :=
  (List.range 2).foldl (fun _com _axis => comPass ps totalMass) (0, 0, 0)

/-- The total-mass reduction (lines 70-74): `totalMass += mass[i]` from 0. -/
def totalMass (ps : List Particle) : ℚ := ps.foldl (fun acc p => acc + p.mass) 0

/-- `#define NUM 20000` (line 9). -/
def NUM : ℕ := 20000

/-- `#define TS 10` (line 10). -/
def TS : ℕ := 10

/-- Lines 16 and 33: `main` receives `argv` but sets `num = NUM`, the
compile-time constant — the arguments are never read. -/
def simNum (_argv : List String) : ℕ := NUM

/-- Lines 16 and 34: `main` receives `argv` but sets `timesteps = TS`. -/
def simTimesteps (_argv : List String) : ℕ := TS

/-- glibc's `RAND_MAX`; `rand()` returns an integer in `[0, RAND_MAX]`. -/
def RAND_MAX : ℕ := 2147483647

/-- `recip = 1.0 / (double)RAND_MAX` (line 167). -/
def recipR : ℚ := 1 / (RAND_MAX : ℚ)

/-- `min_pos = -50.0`, `mult = +100.0`, `maxVel = +5.0` (line 166). -/
def min_pos : ℚ := -50

def mult : ℚ := 100

def maxVel : ℚ := 5

/-- Line 170: `x[i] = min_pos + mult*(double)rand() * recip` (also used for
`y[i]`). -/
def sampleX (r : ℕ) : ℚ := min_pos + mult * (r : ℚ) * recipR

/-- Line 172: `z[i] = 0.0 + mult*(double)rand() * recip`. -/
def sampleZ (r : ℕ) : ℚ := 0 + mult * (r : ℚ) * recipR

/-- Lines 173-175: `vx[i] = -maxVel + 2.0*maxVel*(double)rand() * recip`. -/
def sampleV (r : ℕ) : ℚ := -maxVel + 2 * maxVel * (r : ℚ) * recipR

/-- Line 176: `mass[i] = 0.1 + 10*(double)rand() * recip`. -/
def sampleMass (r : ℕ) : ℚ := 1 / 10 + 10 * (r : ℚ) * recipR

/-- One particle of `init` (lines 169-177): for particle `i` the draws come
in the fixed order x, y, z, vx, vy, vz, mass, so they consume the random
values at positions `7*i .. 7*i+6` of the stream. -/
def initParticle (rand : ℕ → ℕ) (i : ℕ) : Particle :=
  { x := sampleX (rand (7 * i))
    y := sampleX (rand (7 * i + 1))
    z := sampleZ (rand (7 * i + 2))
    vx := sampleV (rand (7 * i + 3))
    vy := sampleV (rand (7 * i + 4))
    vz := sampleV (rand (7 * i + 5))
    mass := sampleMass (rand (7 * i + 6)) }

/-- `init` (lines 162-179): fills all `num` particles and returns `0`
unconditionally (there is no failure path in its body). -/
def init (rand : ℕ → ℕ) (num : ℕ) : Int × List Particle :=
  (0, (List.range num).map (initParticle rand))

/-- The driver's initialization check (lines 61-65): if `rc != 0` it aborts
with status `-99`, otherwise it continues (`none`). -/
def driverInitStatus (rand : ℕ → ℕ) (num : ℕ) : Option Int :=
  if (init rand num).1 ≠ 0 then some (-99) else none

/-- The force magnitude the code computes for the ordered pair `(i, j)` at a
force evaluation on state `ps` (line 120): the live mass and position of `i`
(equal to their snapshot values at that point) and the snapshot entry of
`j`. -/
def stepF (sqrt : ℚ → ℚ) (ps : List Particle) (i j : ℕ) : ℚ :=
  pairF sqrt (ps.getD i default).mass (ps.getD i default).x (ps.getD i default).y
    (ps.getD i default).z ((snapshot ps).getD j default)

/-- Concrete two-particle system used to witness the universally quantified
theorems below. -/
def pA : Particle := ⟨1, 0, 0, 0, 0, 0, 0⟩

def pB : Particle := ⟨2, 1, 0, 0, 0, 0, 0⟩

def psW : List Particle := [pA, pB]

/-- Concrete single particle with nonzero velocity. -/
def p0 : Particle := ⟨1, 0, 0, 0, 1, 0, 0⟩

/-! ## Helper lemmas -/

theorem getD_set_ne {α : Type*} (l : List α) (i j : ℕ) (a d : α) (h : i ≠ j) :
    (l.set i a).getD j d = l.getD j d := by
  rw [List.getD_eq_getD_get?, List.getD_eq_getD_get?, List.get?_eq_getElem?,
    List.get?_eq_getElem?, List.getElem?_set_ne h]

theorem getD_set_self {α : Type*} (l : List α) (i : ℕ) (a d : α) (h : i < l.length) :
    (l.set i a).getD i d = a := by
  rw [List.getD_eq_getElem _ _ (by simpa using h)]
  exact List.getElem_set_self _

theorem loop2_length (sqrt : ℚ → ℚ) (old : List Snap) (idxs : List ℕ) :
    ∀ live : List Particle, (loop2 sqrt old idxs live).length = live.length := by
  induction idxs with
  | nil => intro live; rfl
  | cons i rest ih =>
      intro live
      show (loop2 sqrt old rest _).length = _
      rw [ih, List.length_set]

theorem loop2_getD_not_mem (sqrt : ℚ → ℚ) (old : List Snap) (idxs : List ℕ) :
    ∀ (live : List Particle) (j : ℕ), j ∉ idxs →
      (loop2 sqrt old idxs live).getD j default = live.getD j default := by
  induction idxs with
  | nil => intro live j _; rfl
  | cons i rest ih =>
      intro live j hj
      have h1 : j ∉ rest := fun h => hj (List.mem_cons_of_mem _ h)
      have h2 : i ≠ j := fun h => hj (h ▸ List.mem_cons_self _ _)
      show (loop2 sqrt old rest _).getD j default = _
      rw [ih _ j h1, getD_set_ne _ _ _ _ _ h2]

/-- In-place LOOP2 computes a pure per-index update: since index `j` is
touched exactly once and later iterations do not read slot `j`, the final
slot `j` is `bodyUpdate` of the ORIGINAL live entry `j`. -/
theorem loop2_getD_mem (sqrt : ℚ → ℚ) (old : List Snap) (idxs : List ℕ) :
    ∀ (live : List Particle) (j : ℕ), idxs.Nodup → j ∈ idxs → j < live.length →
      (loop2 sqrt old idxs live).getD j default
        = bodyUpdate sqrt old j (live.getD j default) := by
  induction idxs with
  | nil => intro live j _ hj _; exact absurd hj (List.not_mem_nil j)
  | cons i rest ih =>
      intro live j hnd hj hlen
      have hnd' := List.nodup_cons.mp hnd
      show (loop2 sqrt old rest (live.set i (bodyUpdate sqrt old i (live.getD i default)))).getD
          j default = _
      rcases List.mem_cons.mp hj with hji | hjr
      · subst hji
        rw [loop2_getD_not_mem sqrt old rest _ j hnd'.1,
          getD_set_self _ _ _ _ hlen]
      · have hij : i ≠ j := fun h => hnd'.1 (h ▸ hjr)
        rw [ih _ j hnd'.2 hjr (by rw [List.length_set]; exact hlen),
          getD_set_ne _ _ _ _ _ hij]

/-- The snapshot entry `i` is `mkSnap` of the live entry `i` (totally: for
out-of-range `i` both sides are the all-zero default). -/
theorem snapshot_getD (ps : List Particle) (i : ℕ) :
    (snapshot ps).getD i default = mkSnap (ps.getD i default) :=
  List.getD_map ps default mkSnap

theorem step_length (sqrt : ℚ → ℚ) (ps : List Particle) :
    (step sqrt ps).length = ps.length :=
  loop2_length sqrt (snapshot ps) (List.range ps.length) ps

/-- One step, per index: slot `i` of the result is the pure `bodyUpdate` of
the ORIGINAL entry `i` against the snapshot.  This discharges the C source's
subtlety that LOOP2 reads the live `x[i]`: when iteration `i` runs, slot `i`
has not been written yet, so the live value still equals the snapshot
value. -/
theorem step_getD (sqrt : ℚ → ℚ) (ps : List Particle) (i : ℕ) (h : i < ps.length) :
    (step sqrt ps).getD i default = bodyUpdate sqrt (snapshot ps) i (ps.getD i default) :=
  loop2_getD_mem sqrt (snapshot ps) (List.range ps.length) ps i
    (List.nodup_range ps.length) (List.mem_range.mpr h) h

/-- The code's pairwise contribution, evaluated with the snapshot entry of
particle `i` for its mass and position, is the spec's contribution:
`(F/mi)*dx/d = (F/mi)*(dx/d)` in exact arithmetic. -/
theorem pairAccel_eq_specContrib (sqrt : ℚ → ℚ) (oi s : Snap) :
    pairAccel sqrt oi.mass oi.x oi.y oi.z s = specContrib sqrt oi s := by
  simp only [pairAccel, specContrib, pairF, pairDist, Prod.mk.injEq]
  refine ⟨?_, ?_, ?_⟩ <;> rw [mul_div_assoc]

/-- If the live particle `i` agrees with the snapshot entry `oi` on mass and
position (which holds whenever its LOOP2 iteration starts), the code's inner
loop computes the spec's acceleration sum. -/
theorem innerLoop_eq_specLoop (sqrt : ℚ → ℚ) (i : ℕ) (p : Particle) (oi : Snap)
    (hx : p.x = oi.x) (hy : p.y = oi.y) (hz : p.z = oi.z) (hm : p.mass = oi.mass) :
    ∀ (old : List Snap) (j : ℕ) (acc : ℚ × ℚ × ℚ),
      innerLoop sqrt i p j old acc = specLoop sqrt i oi j old acc := by
  intro old
  induction old with
  | nil => intro j acc; rfl
  | cons s rest ih =>
      intro j acc
      show innerLoop sqrt i p (j + 1) rest _ = specLoop sqrt i oi (j + 1) rest _
      rw [ih, hx, hy, hz, hm, pairAccel_eq_specContrib]

theorem innerSum_eq_specAccel (sqrt : ℚ → ℚ) (old : List Snap) (i : ℕ) (p : Particle)
    (hx : p.x = (old.getD i default).x) (hy : p.y = (old.getD i default).y)
    (hz : p.z = (old.getD i default).z) (hm : p.mass = (old.getD i default).mass) :
    innerSum sqrt old i p = specAccel sqrt old i :=
  innerLoop_eq_specLoop sqrt i p (old.getD i default) hx hy hz hm old 0 (0, 0, 0)

/-- One step of a single-particle system: the empty inner sum leaves the
velocity unchanged, but the position still advances by the velocity. -/
theorem step_singleton (sqrt : ℚ → ℚ) (p : Particle) :
    step sqrt [p] = [{ p with x := p.x + p.vx, y := p.y + p.vy, z := p.z + p.vz }] := by
  show loop2 sqrt (snapshot [p]) (List.range 1) [p] = _
  rw [show List.range 1 = [0] from rfl]
  show [bodyUpdate sqrt (snapshot [p]) 0 p] = _
  simp [bodyUpdate, innerSum, innerLoop, snapshot, mkSnap]

/-! ## Claim theorems -/

/-- C1: one step adds to `velocity_i` the sum over `j ≠ i` of
`(F/mass_i)·(d⃗/d)` with `d⃗ = old_pos[j] - old_pos[i]`, `d = max(|d⃗|,0.01)`,
`F = G·mass_i·old_mass_j/d²`, and then sets
`position_i = old_position_i + velocity_i` with the freshly updated
velocity; the live `x[i]` read by the code equals the snapshot value at that
point, so the displacement is a snapshot displacement. -/
theorem c1_step_formula (sqrt : ℚ → ℚ) (ps : List Particle) (i : ℕ) (h : i < ps.length) :
    ((step sqrt ps).getD i default).vx
        = (ps.getD i default).vx + (specAccel sqrt (snapshot ps) i).1 ∧
    ((step sqrt ps).getD i default).vy
        = (ps.getD i default).vy + (specAccel sqrt (snapshot ps) i).2.1 ∧
    ((step sqrt ps).getD i default).vz
        = (ps.getD i default).vz + (specAccel sqrt (snapshot ps) i).2.2 ∧
    ((step sqrt ps).getD i default).x
        = (ps.getD i default).x + ((step sqrt ps).getD i default).vx ∧
    ((step sqrt ps).getD i default).y
        = (ps.getD i default).y + ((step sqrt ps).getD i default).vy ∧
    ((step sqrt ps).getD i default).z
        = (ps.getD i default).z + ((step sqrt ps).getD i default).vz := by
  have hsg := snapshot_getD ps i
  have hsum : innerSum sqrt (snapshot ps) i (ps.getD i default)
      = specAccel sqrt (snapshot ps) i :=
    innerSum_eq_specAccel sqrt (snapshot ps) i (ps.getD i default)
      (by rw [hsg]; rfl) (by rw [hsg]; rfl) (by rw [hsg]; rfl) (by rw [hsg]; rfl)
  rw [step_getD sqrt ps i h]
  simp only [bodyUpdate, hsum, hsg, mkSnap]
  exact ⟨trivial, trivial, trivial, trivial, trivial, trivial⟩

/-- Witness for C1 at the concrete two-particle system `psW`. -/
theorem c1_step_formula_witness :
    0 < psW.length ∧
    (((step (fun q => q) psW).getD 0 default).vx
        = (psW.getD 0 default).vx + (specAccel (fun q => q) (snapshot psW) 0).1 ∧
    ((step (fun q => q) psW).getD 0 default).vy
        = (psW.getD 0 default).vy + (specAccel (fun q => q) (snapshot psW) 0).2.1 ∧
    ((step (fun q => q) psW).getD 0 default).vz
        = (psW.getD 0 default).vz + (specAccel (fun q => q) (snapshot psW) 0).2.2 ∧
    ((step (fun q => q) psW).getD 0 default).x
        = (psW.getD 0 default).x + ((step (fun q => q) psW).getD 0 default).vx ∧
    ((step (fun q => q) psW).getD 0 default).y
        = (psW.getD 0 default).y + ((step (fun q => q) psW).getD 0 default).vy ∧
    ((step (fun q => q) psW).getD 0 default).z
        = (psW.getD 0 default).z + ((step (fun q => q) psW).getD 0 default).vz) :=
  ⟨by decide, c1_step_formula (fun q => q) psW 0 (by decide)⟩

/-- C2 counterexample: the claim says a single particle's position is
completely unchanged by the integrator, but the particle `p0` (velocity
`(1,0,0)`, position `(0,0,0)`) moves after one step: its `x` becomes `1`. -/
theorem c2_counterexample :
    ((stepsN (fun q => q) 1 [p0]).getD 0 default).x ≠ p0.x := by
  show ((stepsN (fun q => q) 0 (step (fun q => q) [p0])).getD 0 default).x ≠ p0.x
  rw [show stepsN (fun q => q) 0 (step (fun q => q) [p0]) = step (fun q => q) [p0] from rfl,
    step_singleton]
  norm_num [p0, List.getD_cons_zero]

/-- C2 (amended): for N = 1, the inner sum over `j ≠ i` is empty, so across
any number of steps the velocity (and the mass) stays exactly at its initial
value; the position is NOT left unchanged — it drifts by the constant
initial velocity each step, so after `k` steps it is the initial position
plus `k` times the initial velocity (unchanged exactly when the initial
velocity is zero). -/
theorem c2_single_particle (sqrt : ℚ → ℚ) : ∀ (k : ℕ) (p : Particle),
    stepsN sqrt k [p]
      = [{ p with x := p.x + k * p.vx, y := p.y + k * p.vy, z := p.z + k * p.vz }] := by
  intro k
  induction k with
  | zero => intro p; show [p] = _; simp
  | succ n ih =>
      intro p
      show stepsN sqrt n (step sqrt [p]) = _
      rw [step_singleton, ih]
      refine congrArg (fun q => [q]) ?_
      congr 1 <;> push_cast <;> ring

/-- C3 counterexample: supplying a particle count and step count on the
command line has no effect — the driver runs with the compile-time constants
20000 and 10. -/
theorem c3_counterexample :
    simNum ["md", "3", "5"] = 20000 ∧ simTimesteps ["md", "3", "5"] = 10 ∧
    simNum ["md", "3", "5"] ≠ 3 ∧ simTimesteps ["md", "3", "5"] ≠ 5 :=
  ⟨rfl, rfl, by decide, by decide⟩

/-- C3 (amended): the particle count and step count are fixed at compile
time (`NUM = 20000`, `TS = 10`); whatever arguments arrive at the process
boundary, the simulation runs with those hard-wired values. -/
theorem c3_hardwired (argv : List String) :
    simNum argv = NUM ∧ simTimesteps argv = TS ∧ simNum argv = 20000 ∧
    simTimesteps argv = 10 :=
  ⟨rfl, rfl, rfl, rfl⟩

theorem unit_interval (r : ℕ) (h : r ≤ RAND_MAX) :
    0 ≤ (r : ℚ) * recipR ∧ (r : ℚ) * recipR ≤ 1 := by
  have hR : (0 : ℚ) < (RAND_MAX : ℚ) := by norm_num [RAND_MAX]
  have hr : (r : ℚ) ≤ (RAND_MAX : ℚ) := by exact_mod_cast h
  have hr0 : (0 : ℚ) ≤ (r : ℚ) := Nat.cast_nonneg r
  rw [recipR]
  constructor
  · positivity
  · rw [mul_one_div, div_le_one hR]
    exact hr

theorem sampleX_bounds (r : ℕ) (h : r ≤ RAND_MAX) : -50 ≤ sampleX r ∧ sampleX r ≤ 50 := by
  obtain ⟨h0, h1⟩ := unit_interval r h
  rw [sampleX, min_pos, mult]
  constructor <;> nlinarith [h0, h1]

theorem sampleZ_bounds (r : ℕ) (h : r ≤ RAND_MAX) : 0 ≤ sampleZ r ∧ sampleZ r ≤ 100 := by
  obtain ⟨h0, h1⟩ := unit_interval r h
  rw [sampleZ, mult]
  constructor <;> nlinarith [h0, h1]

theorem sampleV_bounds (r : ℕ) (h : r ≤ RAND_MAX) : -5 ≤ sampleV r ∧ sampleV r ≤ 5 := by
  obtain ⟨h0, h1⟩ := unit_interval r h
  rw [sampleV, maxVel]
  constructor <;> nlinarith [h0, h1]

theorem sampleMass_bounds (r : ℕ) (h : r ≤ RAND_MAX) :
    1 / 10 ≤ sampleMass r ∧ sampleMass r ≤ 101 / 10 := by
  obtain ⟨h0, h1⟩ := unit_interval r h
  rw [sampleMass]
  constructor <;> nlinarith [h0, h1]

/-- C4 counterexample: `rand()` can return `RAND_MAX` itself, and then the
sampled `x` is exactly 50 — it does NOT lie in the half-open interval
`[-50, 50)` the claim states.  The first particle produced by `init` from
the constant stream `RAND_MAX` has `x = 50`. -/
theorem c4_counterexample :
    ((init (fun _ => RAND_MAX) 1).2.getD 0 default).x = 50 ∧
    ¬ ((init (fun _ => RAND_MAX) 1).2.getD 0 default).x < 50 := by
  have hx : ((init (fun _ => RAND_MAX) 1).2.getD 0 default).x = sampleX RAND_MAX := rfl
  have h50 : sampleX RAND_MAX = 50 := by
    norm_num [sampleX, min_pos, mult, recipR, RAND_MAX]
  rw [hx, h50]
  norm_num

/-- C4 (amended): for every particle produced by the initializer and every
value the pseudo-random source can return (any integer in
`[0, RAND_MAX]`), the sampled values lie in the CLOSED intervals
`mass ∈ [0.1, 10.1]`, `x, y ∈ [-50, 50]`, `z ∈ [0, 100]`, and each velocity
component in `[-5, 5]` — the upper endpoints are attained when `rand()`
returns `RAND_MAX`. -/
theorem c4_init_ranges (rand : ℕ → ℕ) (num : ℕ) (hr : ∀ k, rand k ≤ RAND_MAX)
    (p : Particle) (hp : p ∈ (init rand num).2) :
    (1 / 10 ≤ p.mass ∧ p.mass ≤ 101 / 10) ∧
    (-50 ≤ p.x ∧ p.x ≤ 50) ∧ (-50 ≤ p.y ∧ p.y ≤ 50) ∧
    (0 ≤ p.z ∧ p.z ≤ 100) ∧
    (-5 ≤ p.vx ∧ p.vx ≤ 5) ∧ (-5 ≤ p.vy ∧ p.vy ≤ 5) ∧ (-5 ≤ p.vz ∧ p.vz ≤ 5) := by
  simp only [init, List.mem_map, List.mem_range] at hp
  obtain ⟨i, hi, rfl⟩ := hp
  exact ⟨sampleMass_bounds _ (hr _), sampleX_bounds _ (hr _), sampleX_bounds _ (hr _),
    sampleZ_bounds _ (hr _), sampleV_bounds _ (hr _), sampleV_bounds _ (hr _),
    sampleV_bounds _ (hr _)⟩

/-- Witness for C4 (amended) at the constant zero random stream. -/
theorem c4_init_ranges_witness :
    (∀ k : ℕ, (fun _ : ℕ => 0) k ≤ RAND_MAX) ∧
    initParticle (fun _ => 0) 0 ∈ (init (fun _ => 0) 1).2 ∧
    ((1 / 10 ≤ (initParticle (fun _ => 0) 0).mass ∧
        (initParticle (fun _ => 0) 0).mass ≤ 101 / 10) ∧
    (-50 ≤ (initParticle (fun _ => 0) 0).x ∧ (initParticle (fun _ => 0) 0).x ≤ 50) ∧
    (-50 ≤ (initParticle (fun _ => 0) 0).y ∧ (initParticle (fun _ => 0) 0).y ≤ 50) ∧
    (0 ≤ (initParticle (fun _ => 0) 0).z ∧ (initParticle (fun _ => 0) 0).z ≤ 100) ∧
    (-5 ≤ (initParticle (fun _ => 0) 0).vx ∧ (initParticle (fun _ => 0) 0).vx ≤ 5) ∧
    (-5 ≤ (initParticle (fun _ => 0) 0).vy ∧ (initParticle (fun _ => 0) 0).vy ≤ 5) ∧
    (-5 ≤ (initParticle (fun _ => 0) 0).vz ∧ (initParticle (fun _ => 0) 0).vz ≤ 5)) :=
  ⟨fun _ => Nat.zero_le _, by simp [init, show List.range 1 = [0] from rfl],
    c4_init_ranges (fun _ => 0) 1 (fun _ => Nat.zero_le _) (initParticle (fun _ => 0) 0)
      (by simp [init, show List.range 1 = [0] from rfl])⟩

theorem foldl_com (ps : List Particle) : ∀ a b c : ℚ,
    ps.foldl
      (fun (acc : ℚ × ℚ × ℚ) p =>
        (acc.1 + p.mass * p.x, acc.2.1 + p.mass * p.y, acc.2.2 + p.mass * p.z))
      (a, b, c)
      = (a + (ps.map fun p => p.mass * p.x).sum,
         b + (ps.map fun p => p.mass * p.y).sum,
         c + (ps.map fun p => p.mass * p.z).sum) := by
  induction ps with
  | nil => intro a b c; simp
  | cons q rest ih =>
      intro a b c
      show rest.foldl _ (a + q.mass * q.x, b + q.mass * q.y, c + q.mass * q.z) = _
      rw [ih]
      simp only [List.map_cons, List.sum_cons, Prod.mk.injEq]
      refine ⟨by ring, by ring, by ring⟩

theorem calc_eq_comPass (ps : List Particle) (tm : ℚ) :
    calc_centre_mass ps tm = comPass ps tm := rfl

/-- C5: with `totalMass > 0`, `calc_centre_mass` returns per axis exactly
`Σ (mass_i · pos_i) / totalMass`, and its outer `axis ∈ {0,1}` loop is
redundant — the result equals a single pass of the inner computation. -/
theorem c5_centre_mass (ps : List Particle) (tm : ℚ) (_h : 0 < tm) :
    calc_centre_mass ps tm
      = ((ps.map fun p => p.mass * p.x).sum / tm,
         (ps.map fun p => p.mass * p.y).sum / tm,
         (ps.map fun p => p.mass * p.z).sum / tm) ∧
    calc_centre_mass ps tm = comPass ps tm := by
  refine ⟨?_, calc_eq_comPass ps tm⟩
  rw [calc_eq_comPass]
  simp only [comPass]
  rw [foldl_com]
  simp

/-- Witness for C5 at the concrete system `psW` with total mass 3. -/
theorem c5_centre_mass_witness :
    (0 : ℚ) < 3 ∧
    (calc_centre_mass psW 3
      = ((psW.map fun p => p.mass * p.x).sum / 3,
         (psW.map fun p => p.mass * p.y).sum / 3,
         (psW.map fun p => p.mass * p.z).sum / 3) ∧
    calc_centre_mass psW 3 = comPass psW 3) :=
  ⟨by norm_num, c5_centre_mass psW 3 (by norm_num)⟩

theorem pairDist_pos (sqrt : ℚ → ℚ) (px py pz : ℚ) (s : Snap) :
    0 < pairDist sqrt px py pz s := by
  rw [pairDist]
  split
  next h => linarith
  next => norm_num

/-- The algebraic cancellation: with `mi ≠ 0`, the code's contribution
`(F/mi)·dx/d` with `F = G·mi·Mj/d²` equals `G·Mj/d²·(dx/d)`. -/
theorem pairAccel_cancel (sqrt : ℚ → ℚ) (mi px py pz : ℚ) (s : Snap) (h : mi ≠ 0) :
    pairAccel sqrt mi px py pz s = pairAccelNoMass sqrt px py pz s := by
  have hd : pairDist sqrt px py pz s ≠ 0 := ne_of_gt (pairDist_pos sqrt px py pz s)
  simp only [pairAccel, pairAccelNoMass, pairF, Prod.mk.injEq]
  refine ⟨?_, ?_, ?_⟩ <;> field_simp <;> ring

/-- The whole inner loop is independent of the mass of particle `i`, as long
as both masses are nonzero. -/
theorem innerLoop_mass_irrel (sqrt : ℚ → ℚ) (i : ℕ) (p : Particle) (m : ℚ)
    (hp : p.mass ≠ 0) (hm : m ≠ 0) :
    ∀ (old : List Snap) (j : ℕ) (acc : ℚ × ℚ × ℚ),
      innerLoop sqrt i { p with mass := m } j old acc = innerLoop sqrt i p j old acc := by
  intro old
  induction old with
  | nil => intro j acc; rfl
  | cons s rest ih =>
      intro j acc
      show innerLoop sqrt i _ (j + 1) rest _ = innerLoop sqrt i p (j + 1) rest _
      rw [ih]
      have h1 : pairAccel sqrt m p.x p.y p.z s = pairAccel sqrt p.mass p.x p.y p.z s := by
        rw [pairAccel_cancel sqrt m p.x p.y p.z s hm,
          pairAccel_cancel sqrt p.mass p.x p.y p.z s hp]
      show innerLoop sqrt i p (j + 1) rest
          (if j = i then acc
           else
             (acc.1 + (pairAccel sqrt m p.x p.y p.z s).1,
              acc.2.1 + (pairAccel sqrt m p.x p.y p.z s).2.1,
              acc.2.2 + (pairAccel sqrt m p.x p.y p.z s).2.2)) = _
      rw [h1]

/-- C6: in the per-pair acceleration the factor `mass_i` cancels: the
contribution `(F/mass_i)·(d⃗/d)` with `F = G·mass_i·old_mass_j/d²` equals
`G·old_mass_j/d²·(d⃗/d)` (exact arithmetic), and consequently the
accumulated velocity update of particle `i` does not depend on `mass_i`. -/
theorem c6_mass_cancellation (sqrt : ℚ → ℚ) (mi px py pz : ℚ) (s : Snap)
    (old : List Snap) (i : ℕ) (p : Particle) (m : ℚ)
    (hmi : 0 < mi) (hp : 0 < p.mass) (hm : 0 < m) :
    pairAccel sqrt mi px py pz s = pairAccelNoMass sqrt px py pz s ∧
    innerSum sqrt old i { p with mass := m } = innerSum sqrt old i p :=
  ⟨pairAccel_cancel sqrt mi px py pz s (ne_of_gt hmi),
   innerLoop_mass_irrel sqrt i p m (ne_of_gt hp) (ne_of_gt hm) old 0 (0, 0, 0)⟩

/-- Witness for C6 at concrete values. -/
theorem c6_mass_cancellation_witness :
    (0 : ℚ) < 1 ∧ (0 : ℚ) < pA.mass ∧ (0 : ℚ) < 3 ∧
    (pairAccel (fun q => q) 1 0 0 0 (mkSnap pB)
        = pairAccelNoMass (fun q => q) 0 0 0 (mkSnap pB) ∧
     innerSum (fun q => q) (snapshot psW) 0 { pA with mass := 3 }
        = innerSum (fun q => q) (snapshot psW) 0 pA) :=
  ⟨by norm_num, by norm_num [pA], by norm_num,
    c6_mass_cancellation (fun q => q) 1 0 0 0 (mkSnap pB) (snapshot psW) 0 pA 3
      (by norm_num) (by norm_num [pA]) (by norm_num)⟩

theorem map_mass_set (live : List Particle) : ∀ (i : ℕ) (q : Particle),
    q.mass = (live.getD i default).mass →
    (live.set i q).map Particle.mass = live.map Particle.mass := by
  induction live with
  | nil => intro i q _; rfl
  | cons x xs ih =>
      intro i q h
      cases i with
      | zero =>
          show q.mass :: xs.map Particle.mass = x.mass :: xs.map Particle.mass
          rw [show ((x :: xs).getD 0 default).mass = x.mass from rfl] at h
          rw [h]
      | succ n =>
          show x.mass :: (xs.set n q).map Particle.mass = x.mass :: xs.map Particle.mass
          rw [ih n q h]

theorem loop2_map_mass (sqrt : ℚ → ℚ) (old : List Snap) (idxs : List ℕ) :
    ∀ live : List Particle,
      (loop2 sqrt old idxs live).map Particle.mass = live.map Particle.mass := by
  induction idxs with
  | nil => intro live; rfl
  | cons i rest ih =>
      intro live
      show (loop2 sqrt old rest _).map _ = _
      rw [ih, map_mass_set live i (bodyUpdate sqrt old i (live.getD i default)) rfl]

theorem step_map_mass (sqrt : ℚ → ℚ) (ps : List Particle) :
    (step sqrt ps).map Particle.mass = ps.map Particle.mass :=
  loop2_map_mass sqrt (snapshot ps) (List.range ps.length) ps

theorem stepsN_map_mass (sqrt : ℚ → ℚ) : ∀ (n : ℕ) (ps : List Particle),
    (stepsN sqrt n ps).map Particle.mass = ps.map Particle.mass := by
  intro n
  induction n with
  | zero => intro ps; rfl
  | succ k ih =>
      intro ps
      show (stepsN sqrt k (step sqrt ps)).map _ = _
      rw [ih, step_map_mass]

theorem mass_getD_of_map_eq (l1 l2 : List Particle)
    (h : l1.map Particle.mass = l2.map Particle.mass) (i : ℕ) :
    (l1.getD i default).mass = (l2.getD i default).mass := by
  have h1 : (l1.map Particle.mass).getD i 0 = (l1.getD i default).mass :=
    List.getD_map l1 default Particle.mass
  have h2 : (l2.map Particle.mass).getD i 0 = (l2.getD i default).mass :=
    List.getD_map l2 default Particle.mass
  rw [← h1, ← h2, h]

/-- C7: the step integrator never writes a mass: after any number of steps,
every particle's mass equals its initial value, and the whole mass array is
unchanged. -/
theorem c7_mass_frame (sqrt : ℚ → ℚ) (ps : List Particle) (n i : ℕ) :
    ((stepsN sqrt n ps).getD i default).mass = (ps.getD i default).mass ∧
    (stepsN sqrt n ps).map Particle.mass = ps.map Particle.mass :=
  ⟨mass_getD_of_map_eq _ _ (stepsN_map_mass sqrt n ps) i, stepsN_map_mass sqrt n ps⟩

/-- C8: `init` returns 0 on every input — it has no failure path — so the
driver's `rc != 0` abort branch is unreachable and the post-init status is
always `none` (continue). -/
theorem c8_init_rc (rand : ℕ → ℕ) (num : ℕ) :
    (init rand num).1 = 0 ∧ driverInitStatus rand num = none :=
  ⟨rfl, by simp [driverInitStatus, init]⟩

theorem pairDist_snap_comm (sqrt : ℚ → ℚ) (p q : Particle) :
    pairDist sqrt p.x p.y p.z (mkSnap q) = pairDist sqrt q.x q.y q.z (mkSnap p) := by
  simp only [pairDist, mkSnap]
  have h : (q.x - p.x) * (q.x - p.x) + (q.y - p.y) * (q.y - p.y) + (q.z - p.z) * (q.z - p.z)
      = (p.x - q.x) * (p.x - q.x) + (p.y - q.y) * (p.y - q.y) + (p.z - q.z) * (p.z - q.z) := by
    ring
  rw [h]

/-- C9: at every force evaluation of every step, the snapshot mass equals
the live mass (masses are never written after initialization, and the
snapshot copies them at step start), so the pairwise force magnitude the
code computes is symmetric: `F(i,j) = F(j,i)` in exact arithmetic on the
state of any step. -/
theorem c9_force_symmetry (sqrt : ℚ → ℚ) (ps : List Particle) (n i j : ℕ) :
    ((snapshot (stepsN sqrt n ps)).getD j default).mass
        = ((stepsN sqrt n ps).getD j default).mass ∧
    ((stepsN sqrt n ps).getD j default).mass = (ps.getD j default).mass ∧
    stepF sqrt (stepsN sqrt n ps) i j = stepF sqrt (stepsN sqrt n ps) j i := by
  refine ⟨by rw [snapshot_getD]; rfl, mass_getD_of_map_eq _ _ (stepsN_map_mass sqrt n ps) j, ?_⟩
  simp only [stepF, snapshot_getD, pairF]
  rw [pairDist_snap_comm]
  simp only [mkSnap]
  ring

theorem foldl_add_mass (ps : List Particle) : ∀ c : ℚ,
    ps.foldl (fun acc p => acc + p.mass) c = c + (ps.map Particle.mass).sum := by
  induction ps with
  | nil => intro c; simp
  | cons q rest ih =>
      intro c
      show rest.foldl _ (c + q.mass) = _
      rw [ih]
      simp only [List.map_cons, List.sum_cons]
      ring

theorem totalMass_eq (ps : List Particle) : totalMass ps = (ps.map Particle.mass).sum := by
  rw [totalMass, foldl_add_mass]
  ring

/-- C10: the total mass is invariant under stepping (no mass is ever
modified after initialization), so dividing every per-step and final
centre-of-mass report by the `totalMass` computed once at t = 0 is
equivalent to recomputing the current total mass at every step. -/
theorem c10_totalMass_refinement (sqrt : ℚ → ℚ) (ps : List Particle) (n : ℕ) :
    totalMass (stepsN sqrt n ps) = totalMass ps ∧
    calc_centre_mass (stepsN sqrt n ps) (totalMass ps)
      = calc_centre_mass (stepsN sqrt n ps) (totalMass (stepsN sqrt n ps)) := by
  have h : totalMass (stepsN sqrt n ps) = totalMass ps := by
    rw [totalMass_eq, totalMass_eq, stepsN_map_mass]
  exact ⟨h, by rw [h]⟩

end MD
